import Mathlib

/-! Verification of the geometric post-processing core of the ODGI cascade
object detector, over an exact-rational shallow embedding of the
array computations of tf_utils.py and tf_inputs.py (TensorFlow real
arithmetic is modelled by the rationals; all tensor operations used by the
claims are componentwise, so they are embedded per box / per grid cell). -/

namespace ODGI

/-- A bounding box given as four coordinates (xmin, ymin, xmax, ymax) in
normalized image coordinates, as in the Record data model. -/
structure Box where
  x1 : ℚ
  y1 : ℚ
  x2 : ℚ
  y2 : ℚ
deriving DecidableEq, Repr

/-- The all-zero box used as padding throughout the pipeline. -/
def zeroBox : Box := ⟨0, 0, 0, 0⟩

/-- Embeds tf_utils.get_intersection: componentwise intersection area
of two boxes, max(0, min(x2,p2) - max(x1,p1)) * max(0, min(y2,q2) - max(y1,q1)). -/
def get_intersection (A B : Box) : ℚ :=
  max 0 (min A.x2 B.x2 - max A.x1 B.x1) * max 0 (min A.y2 B.y2 - max A.y1 B.y1)

/-- Embeds tf_utils.get_area: max(0, x2 - x1) * max(0, y2 - y1). -/
def get_area (A : Box) : ℚ :=
  max 0 (A.x2 - A.x1) * max 0 (A.y2 - A.y1)

/-- Embeds tf_utils.get_iou: intersection / max(epsilon, union). -/
def get_iou (A B : Box) (eps : ℚ) : ℚ :=
  get_intersection A B /
    max eps (get_area A + get_area B - get_intersection A B)

/-- Embeds tf_utils.get_intersection_ratio: intersection / max(epsilon, area A),
the fraction of A covered by B. -/
def interRatioOf (A B : Box) (eps : ℚ) : ℚ :=
  get_intersection A B / max eps (get_area A)

/-- Embeds tf_utils.get_iou_and_inter: the fused computation returning the
iou and the intersection ratio together; note its second component divides by
(area A + epsilon), not by max(epsilon, area A). -/
def get_iou_and_inter (A B : Box) (eps : ℚ) : ℚ × ℚ :=
  let intersection := get_intersection A B
  let areaA := get_area A
  let inter := intersection / (areaA + eps)
  let union := areaA + get_area B - intersection
  (intersection / max eps union, inter)

/-- The intersection area is nonnegative. -/
theorem get_intersection_nonneg (A B : Box) : 0 ≤ get_intersection A B :=
  mul_nonneg (le_max_left 0 _) (le_max_left 0 _)

/-- The box area is nonnegative. -/
theorem get_area_nonneg (A : Box) : 0 ≤ get_area A :=
  mul_nonneg (le_max_left 0 _) (le_max_left 0 _)

/-- The intersection of A and B is at most the area of A. -/
theorem get_intersection_le_left (A B : Box) : get_intersection A B ≤ get_area A := by
  unfold get_intersection get_area
  apply mul_le_mul
  · exact max_le_max le_rfl (sub_le_sub (min_le_left _ _) (le_max_left _ _))
  · exact max_le_max le_rfl (sub_le_sub (min_le_left _ _) (le_max_left _ _))
  · exact le_max_left 0 _
  · exact le_max_left 0 _

/-- The intersection of A and B is at most the area of B. -/
theorem get_intersection_le_right (A B : Box) : get_intersection A B ≤ get_area B := by
  unfold get_intersection get_area
  apply mul_le_mul
  · exact max_le_max le_rfl (sub_le_sub (min_le_right _ _) (le_max_right _ _))
  · exact max_le_max le_rfl (sub_le_sub (min_le_right _ _) (le_max_right _ _))
  · exact le_max_left 0 _
  · exact le_max_left 0 _

/-- A box intersects itself in exactly its own area. -/
theorem get_intersection_self (A : Box) : get_intersection A A = get_area A := by
  simp [get_intersection, get_area]

/-- C8: the claim as stated is false: get_iou(A, A) is not 1 for every
non-degenerate A. For A = (0, 0, 1/100000, 1/100000) (a valid box, xmax > xmin
and ymax > ymin) and the default epsilon 1e-8, the area 1e-10 falls under the
epsilon floor of the denominator and get_iou(A, A) evaluates to 1/100. -/
theorem C8_counterexample :
    (Box.mk 0 0 (1/100000) (1/100000)).x2 > (Box.mk 0 0 (1/100000) (1/100000)).x1
    ∧ (Box.mk 0 0 (1/100000) (1/100000)).y2 > (Box.mk 0 0 (1/100000) (1/100000)).y1
    ∧ get_iou (Box.mk 0 0 (1/100000) (1/100000)) (Box.mk 0 0 (1/100000) (1/100000))
        (1/100000000) = 1/100
    ∧ (1:ℚ)/100 ≠ 1 := by
  refine ⟨by norm_num, by norm_num, ?_, by norm_num⟩
  norm_num [get_iou, get_intersection, get_area]

/-- C8 (amended): for every pair of boxes and epsilon > 0, 0 ≤ iou ≤ 1;
get_iou(A, A) = 1 for every A whose area is at least epsilon (instead of
every non-degenerate A); and iou is 0 whenever the boxes do not overlap
(their intersection area is 0). -/
theorem C8_iou_bounds (A B : Box) (eps : ℚ) (heps : 0 < eps) :
    (0 ≤ get_iou A B eps ∧ get_iou A B eps ≤ 1)
    ∧ (eps ≤ get_area A → get_iou A A eps = 1)
    ∧ (get_intersection A B = 0 → get_iou A B eps = 0) := by
  have hden : 0 < max eps (get_area A + get_area B - get_intersection A B) :=
    lt_of_lt_of_le heps (le_max_left _ _)
  refine ⟨⟨div_nonneg (get_intersection_nonneg A B) (le_of_lt hden), ?_⟩, ?_, ?_⟩
  · unfold get_iou
    rw [div_le_one hden]
    have h1 := get_intersection_le_left A B
    have h2 := get_intersection_le_right A B
    have hu : get_intersection A B ≤ get_area A + get_area B - get_intersection A B := by
      linarith
    exact le_trans hu (le_max_right _ _)
  · intro hA
    unfold get_iou
    rw [get_intersection_self]
    have : get_area A + get_area A - get_area A = get_area A := by ring
    rw [this, max_eq_right hA]
    exact div_self (ne_of_gt (lt_of_lt_of_le heps hA))
  · intro h0
    unfold get_iou
    rw [h0, zero_div]

/-- C8 witness: the amended bounds instantiated at the unit boxes and
epsilon = 1/2. -/
theorem C8_iou_bounds_witness :
    (0:ℚ) < 1/2
    ∧ ((0 ≤ get_iou (Box.mk 0 0 1 1) (Box.mk 0 0 1 1) (1/2)
        ∧ get_iou (Box.mk 0 0 1 1) (Box.mk 0 0 1 1) (1/2) ≤ 1)
      ∧ (1/2 ≤ get_area (Box.mk 0 0 1 1) →
          get_iou (Box.mk 0 0 1 1) (Box.mk 0 0 1 1) (1/2) = 1)
      ∧ (get_intersection (Box.mk 0 0 1 1) (Box.mk 0 0 1 1) = 0 →
          get_iou (Box.mk 0 0 1 1) (Box.mk 0 0 1 1) (1/2) = 0)) :=
  ⟨by norm_num, C8_iou_bounds (Box.mk 0 0 1 1) (Box.mk 0 0 1 1) (1/2) (by norm_num)⟩

/-- C10: the claim is false: get_iou_and_inter is not extensionally equal to
the pair of get_iou and get_intersection_ratio. At A = B = (0, 0, 1, 1) and
the default epsilon 1e-8 the separate function yields ratio 1 while the fused
one yields 100000000/100000001, because the fused code divides by
(area A + epsilon) where the separate one divides by max(epsilon, area A). -/
theorem C10_counterexample :
    get_iou_and_inter (Box.mk 0 0 1 1) (Box.mk 0 0 1 1) (1/100000000) ≠
      (get_iou (Box.mk 0 0 1 1) (Box.mk 0 0 1 1) (1/100000000),
       interRatioOf (Box.mk 0 0 1 1) (Box.mk 0 0 1 1) (1/100000000)) := by
  have h2 : (get_iou_and_inter (Box.mk 0 0 1 1) (Box.mk 0 0 1 1) (1/100000000)).2
      = 100000000/100000001 := by
    norm_num [get_iou_and_inter, get_intersection, get_area]
  have h3 : interRatioOf (Box.mk 0 0 1 1) (Box.mk 0 0 1 1) (1/100000000) = 1 := by
    norm_num [interRatioOf, get_intersection, get_area]
  intro h
  rw [Prod.ext_iff] at h
  rw [h2, h3] at h
  exact absurd h.2 (by norm_num)

/-- Embeds tf.clip_by_value(x, 0., 1.) componentwise. -/
def clip01 (q : ℚ) : ℚ := min 1 (max 0 q)

/-- Clip all four coordinates of a box to the unit interval. -/
def clipBox (b : Box) : Box := ⟨clip01 b.x1, clip01 b.y1, clip01 b.x2, clip01 b.y2⟩

/-- The affine coordinate change of get_next_stage_inputs (shift_bbs scope):
translate by -crop_min and divide componentwise by the epsilon-floored crop
extent max(epsilon, crop_max - crop_min), the x extent for x coordinates and
the y extent for y coordinates. -/
def affineRemap (b c : Box) (eps : ℚ) : Box :=
  ⟨(b.x1 - c.x1) / max eps (c.x2 - c.x1),
   (b.y1 - c.y1) / max eps (c.y2 - c.y1),
   (b.x2 - c.x1) / max eps (c.x2 - c.x1),
   (b.y2 - c.y1) / max eps (c.y2 - c.y1)⟩

/-- Embeds the per-box, per-crop body of get_next_stage_inputs (shift_bbs
scope of tf_inputs.py): multiply all four coordinates by the 0/1 indicator of
intersection_ratio > intersection_ratio_threshold, then translate by
-crop_min, divide by the epsilon-floored crop extent and clip to the unit
interval. -/
def remapBox (b c : Box) (thr eps : ℚ) : Box :=
  let keep : ℚ := if thr < interRatioOf b c eps then 1 else 0
  clipBox (affineRemap ⟨b.x1 * keep, b.y1 * keep, b.x2 * keep, b.y2 * keep⟩ c eps)

/-- All ground-truth boxes of a record remapped to the frame of one crop. -/
def remapBoxes (bs : List Box) (c : Box) (thr eps : ℚ) : List Box :=
  bs.map fun b => remapBox b c thr eps

/-- Embeds the num_boxes recomputation of get_next_stage_inputs: the count of
remapped boxes with xmax > xmin and ymax > ymin. -/
def newNumBoxes (bs : List Box) (c : Box) (thr eps : ℚ) : ℕ :=
  (remapBoxes bs c thr eps).countP fun b =>
    decide (b.x1 < b.x2) && decide (b.y1 < b.y2)

/-- A kept box is remapped exactly by the clipped affine change. -/
theorem remapBox_of_kept (b c : Box) (thr eps : ℚ)
    (h : thr < interRatioOf b c eps) :
    remapBox b c thr eps = clipBox (affineRemap b c eps) := by
  unfold remapBox
  simp only [if_pos h, mul_one]

/-- A filtered-out box ends as the all-zero box: its coordinates are zeroed,
and for a crop with nonnegative mins the shifted coordinates are nonpositive,
so the clip sends them all to 0. -/
theorem remapBox_of_cut (b c : Box) (thr eps : ℚ) (heps : 0 < eps)
    (hcx : 0 ≤ c.x1) (hcy : 0 ≤ c.y1)
    (h : ¬ thr < interRatioOf b c eps) :
    remapBox b c thr eps = zeroBox := by
  unfold remapBox
  simp only [if_neg h, mul_zero]
  have hdx : 0 < max eps (c.x2 - c.x1) := lt_of_lt_of_le heps (le_max_left _ _)
  have hdy : 0 < max eps (c.y2 - c.y1) := lt_of_lt_of_le heps (le_max_left _ _)
  have hx : (-c.x1) / max eps (c.x2 - c.x1) ≤ 0 :=
    div_nonpos_of_nonpos_of_nonneg (by linarith) (le_of_lt hdx)
  have hy : (-c.y1) / max eps (c.y2 - c.y1) ≤ 0 :=
    div_nonpos_of_nonpos_of_nonneg (by linarith) (le_of_lt hdy)
  have hclipx : clip01 ((-c.x1) / max eps (c.x2 - c.x1)) = 0 := by
    unfold clip01
    rw [max_eq_left hx]
    exact min_eq_right (by norm_num)
  have hclipy : clip01 ((-c.y1) / max eps (c.y2 - c.y1)) = 0 := by
    unfold clip01
    rw [max_eq_left hy]
    exact min_eq_right (by norm_num)
  simp [clipBox, affineRemap, zeroBox, hclipx, hclipy]

/-- C1: in get_next_stage_inputs a ground-truth box is kept iff its
intersection ratio with the crop exceeds the threshold; a kept box is
remapped by the clipped, epsilon-floored affine change while a cut box comes
out as the all-zero box; and the recomputed num_boxes counts exactly the kept
boxes whose remap is still a valid box (xmax > xmin and ymax > ymin). Stated
for crops with nonnegative min corner (crop boxes are normalized) and
positive epsilon. -/
theorem C1_box_remap (bs : List Box) (b c : Box) (thr eps : ℚ)
    (heps : 0 < eps) (hcx : 0 ≤ c.x1) (hcy : 0 ≤ c.y1) :
    (thr < interRatioOf b c eps →
      remapBox b c thr eps = clipBox (affineRemap b c eps))
    ∧ (¬ thr < interRatioOf b c eps → remapBox b c thr eps = zeroBox)
    ∧ newNumBoxes bs c thr eps = bs.countP fun b' =>
        decide (thr < interRatioOf b' c eps)
        && (decide ((clipBox (affineRemap b' c eps)).x1 < (clipBox (affineRemap b' c eps)).x2)
            && decide ((clipBox (affineRemap b' c eps)).y1 < (clipBox (affineRemap b' c eps)).y2)) := by
  refine ⟨remapBox_of_kept b c thr eps, remapBox_of_cut b c thr eps heps hcx hcy, ?_⟩
  unfold newNumBoxes remapBoxes
  rw [List.countP_map]
  apply List.countP_congr
  intro b' _
  by_cases hk : thr < interRatioOf b' c eps
  · simp [remapBox_of_kept b' c thr eps hk, hk]
  · simp [remapBox_of_cut b' c thr eps heps hcx hcy hk, hk, zeroBox]

/-- C1 witness: the remap behavior instantiated at the full-image box, the
lower-left quadrant crop, threshold 1/5 and epsilon 1e-8. -/
theorem C1_box_remap_witness :
    ((0:ℚ) < 1/100000000 ∧ (0:ℚ) ≤ (Box.mk 0 0 (1/2) (1/2)).x1
      ∧ (0:ℚ) ≤ (Box.mk 0 0 (1/2) (1/2)).y1)
    ∧ ((1/5 < interRatioOf (Box.mk 0 0 1 1) (Box.mk 0 0 (1/2) (1/2)) (1/100000000) →
        remapBox (Box.mk 0 0 1 1) (Box.mk 0 0 (1/2) (1/2)) (1/5) (1/100000000)
          = clipBox (affineRemap (Box.mk 0 0 1 1) (Box.mk 0 0 (1/2) (1/2)) (1/100000000)))
      ∧ (¬ (1/5 < interRatioOf (Box.mk 0 0 1 1) (Box.mk 0 0 (1/2) (1/2)) (1/100000000)) →
          remapBox (Box.mk 0 0 1 1) (Box.mk 0 0 (1/2) (1/2)) (1/5) (1/100000000) = zeroBox)
      ∧ newNumBoxes [Box.mk 0 0 1 1] (Box.mk 0 0 (1/2) (1/2)) (1/5) (1/100000000)
          = [Box.mk 0 0 1 1].countP fun b' =>
            decide ((1:ℚ)/5 < interRatioOf b' (Box.mk 0 0 (1/2) (1/2)) (1/100000000))
            && (decide ((clipBox (affineRemap b' (Box.mk 0 0 (1/2) (1/2)) (1/100000000))).x1
                  < (clipBox (affineRemap b' (Box.mk 0 0 (1/2) (1/2)) (1/100000000))).x2)
                && decide ((clipBox (affineRemap b' (Box.mk 0 0 (1/2) (1/2)) (1/100000000))).y1
                  < (clipBox (affineRemap b' (Box.mk 0 0 (1/2) (1/2)) (1/100000000))).y2))) :=
  ⟨⟨by norm_num, by norm_num, by norm_num⟩,
   C1_box_remap [Box.mk 0 0 1 1] (Box.mk 0 0 1 1) (Box.mk 0 0 (1/2) (1/2)) (1/5)
     (1/100000000) (by norm_num) (by norm_num) (by norm_num)⟩

/-- C2: the claim as stated is false. For the crop (0, 0, 0.5, 0.5), the
ground-truth box (0, 0, 1, 1) and the default epsilon, the intersection ratio
is exactly 0.25, the strict filter 0.25 > 0.25 fails, and
get_next_stage_inputs zeroes the box out instead of keeping it, so the
remapped box is (0, 0, 0, 0), not (0, 0, 1, 1). -/
theorem C2_counterexample :
    interRatioOf (Box.mk 0 0 1 1) (Box.mk 0 0 (1/2) (1/2)) (1/100000000) = 1/4
    ∧ remapBox (Box.mk 0 0 1 1) (Box.mk 0 0 (1/2) (1/2)) (1/4) (1/100000000) = zeroBox
    ∧ remapBox (Box.mk 0 0 1 1) (Box.mk 0 0 (1/2) (1/2)) (1/4) (1/100000000)
        ≠ Box.mk 0 0 1 1 := by
  have hr : interRatioOf (Box.mk 0 0 1 1) (Box.mk 0 0 (1/2) (1/2)) (1/100000000) = 1/4 := by
    norm_num [interRatioOf, get_intersection, get_area]
  have hz : remapBox (Box.mk 0 0 1 1) (Box.mk 0 0 (1/2) (1/2)) (1/4) (1/100000000) = zeroBox := by
    apply remapBox_of_cut _ _ _ _ (by norm_num) (by norm_num) (by norm_num)
    rw [hr]
    norm_num
  refine ⟨hr, hz, ?_⟩
  rw [hz]
  intro h
  have := congrArg Box.x2 h
  norm_num [zeroBox] at this

/-- C2 (amended): with the intersection ratio exactly 0.25, the box survives
and remaps to (0, 0, 1, 1) in crop coordinates precisely when
intersection_ratio_threshold is strictly below 0.25; at the default threshold
0.25 itself the box is zeroed out. Stated for any epsilon in (0, 1/2]. -/
theorem C2_amended (thr eps : ℚ) (heps : 0 < eps) (heps2 : eps ≤ 1/2)
    (hthr : thr < 1/4) :
    remapBox (Box.mk 0 0 1 1) (Box.mk 0 0 (1/2) (1/2)) thr eps = Box.mk 0 0 1 1
    ∧ remapBox (Box.mk 0 0 1 1) (Box.mk 0 0 (1/2) (1/2)) (1/4) eps = zeroBox := by
  have harea : get_area (Box.mk 0 0 1 1) = 1 := by norm_num [get_area]
  have hinter : get_intersection (Box.mk 0 0 1 1) (Box.mk 0 0 (1/2) (1/2)) = 1/4 := by
    norm_num [get_intersection]
  have hr : interRatioOf (Box.mk 0 0 1 1) (Box.mk 0 0 (1/2) (1/2)) eps = 1/4 := by
    unfold interRatioOf
    rw [harea, hinter, max_eq_right (by linarith)]
    norm_num
  constructor
  · rw [remapBox_of_kept _ _ _ _ (by rw [hr]; exact hthr)]
    have hd : max eps ((Box.mk 0 0 (1/2) (1/2)).x2 - (Box.mk 0 0 (1/2) (1/2)).x1) = 1/2 := by
      have : (Box.mk 0 0 (1/2) (1/2)).x2 - (Box.mk 0 0 (1/2) (1/2)).x1 = 1/2 := by norm_num
      rw [this]
      exact max_eq_right heps2
    simp only [affineRemap, clipBox, hd]
    norm_num [clip01]
  · apply remapBox_of_cut _ _ _ _ heps (by norm_num) (by norm_num)
    rw [hr]
    norm_num

/-- C2 witness: the amended statement at threshold 1/5 and epsilon 1e-8. -/
theorem C2_amended_witness :
    ((0:ℚ) < 1/100000000 ∧ (1:ℚ)/100000000 ≤ 1/2 ∧ (1:ℚ)/5 < 1/4)
    ∧ (remapBox (Box.mk 0 0 1 1) (Box.mk 0 0 (1/2) (1/2)) (1/5) (1/100000000)
        = Box.mk 0 0 1 1
      ∧ remapBox (Box.mk 0 0 1 1) (Box.mk 0 0 (1/2) (1/2)) (1/4) (1/100000000) = zeroBox) :=
  ⟨⟨by norm_num, by norm_num, by norm_num⟩,
   C2_amended (1/5) (1/100000000) (by norm_num) (by norm_num) (by norm_num)⟩

/-- The first (box, score) pair with maximal score of a list, together with
the other pairs in their original order: greedy NMS picks the highest
remaining score, ties broken stably by original index. -/
def selectMax : List (Box × ℚ) → Option ((Box × ℚ) × List (Box × ℚ))
  | [] => none
  | p :: rest =>
    match selectMax rest with
    | none => some (p, [])
    | some (q, others) => if q.2 > p.2 then some (q, p :: others) else some (p, rest)

/-- Modelled from the spec: the greedy selection loop of utils.nms_with_pad
(the function itself is not under src, only its caller extract_groups is).
Repeatedly take the pair with the highest remaining score, suppress every
remaining pair whose box has iou at least the threshold against the picked
box, and stop after at most fuel picks or when no pair remains. -/
def nmsGreedy (iouThr eps : ℚ) : ℕ → List (Box × ℚ) → List (Box × ℚ)
  | 0, _ => []
  | fuel + 1, l =>
    match selectMax l with
    | none => []
    | some (p, rest) =>
      p :: nmsGreedy iouThr eps fuel (rest.filter fun q => decide (get_iou p.1 q.1 eps < iouThr))

/-- Modelled from the spec: utils.nms_with_pad returns exactly K boxes and K
scores, the greedy NMS picks padded with all-zero boxes and zero scores. -/
def nms_with_pad (boxes : List Box) (scores : List ℚ) (K : ℕ) (iouThr eps : ℚ) :
    List Box × List ℚ :=
  let sel := nmsGreedy iouThr eps K (boxes.zip scores)
  (sel.map Prod.fst ++ List.replicate (K - sel.length) zeroBox,
   sel.map Prod.snd ++ List.replicate (K - sel.length) 0)

/-- Embeds the per-batch NMS loop of extract_groups (include/tf_inputs.py,
nms scope): for each slot i of the statically known previous batch size, run
nms_with_pad on image i when i is below the true (possibly ragged) batch
length, and emit all-zero boxes and scores otherwise. -/
def nmsLoop (batchSize K : ℕ) (inputs : List (List Box × List ℚ)) (iouThr eps : ℚ) :
    List (List Box × List ℚ) :=
  (List.range batchSize).map fun i =>
    match inputs[i]? with
    | some (bs, ss) => nms_with_pad bs ss K iouThr eps
    | none => (List.replicate K zeroBox, List.replicate K 0)

/-- The greedy selection makes at most fuel picks. -/
theorem nmsGreedy_length_le (iouThr eps : ℚ) (fuel : ℕ) (l : List (Box × ℚ)) :
    (nmsGreedy iouThr eps fuel l).length ≤ fuel := by
  induction fuel generalizing l with
  | zero => simp [nmsGreedy]
  | succ n ih =>
    unfold nmsGreedy
    match hs : selectMax l with
    | none => simp
    | some (p, rest) =>
      simp only [List.length_cons]
      exact Nat.succ_le_succ (ih _)

/-- Both components of nms_with_pad have length exactly K. -/
theorem nms_with_pad_length (boxes : List Box) (scores : List ℚ) (K : ℕ)
    (iouThr eps : ℚ) :
    (nms_with_pad boxes scores K iouThr eps).1.length = K
    ∧ (nms_with_pad boxes scores K iouThr eps).2.length = K := by
  have h := nmsGreedy_length_le iouThr eps K (boxes.zip scores)
  constructor <;>
    simp [nms_with_pad, List.length_append, List.length_map, List.length_replicate,
      Nat.add_sub_cancel' h]

/-- C3: the extract_groups NMS stage emits one entry per slot of the static
batch size; every entry holds exactly K boxes and K scores; a slot at or
beyond the true batch length yields all-zero boxes and scores instead of an
error; a slot below it yields nms_with_pad of that image; and nms_with_pad is
the greedy selection (highest remaining score first, suppressing iou at or
above the threshold) padded to K with all-zero boxes and zero scores. -/
theorem C3_nms_extract (batchSize K i : ℕ) (inputs : List (List Box × List ℚ))
    (iouThr eps : ℚ) (hi : i < batchSize) :
    (nmsLoop batchSize K inputs iouThr eps).length = batchSize
    ∧ (∀ p ∈ nmsLoop batchSize K inputs iouThr eps, p.1.length = K ∧ p.2.length = K)
    ∧ (inputs.length ≤ i →
        (nmsLoop batchSize K inputs iouThr eps)[i]? =
          some (List.replicate K zeroBox, List.replicate K 0))
    ∧ (∀ bs ss, inputs[i]? = some (bs, ss) →
        (nmsLoop batchSize K inputs iouThr eps)[i]? =
          some (nms_with_pad bs ss K iouThr eps))
    ∧ (∀ bs ss,
        (nmsGreedy iouThr eps K (bs.zip ss)).length ≤ K
        ∧ nms_with_pad bs ss K iouThr eps =
            ((nmsGreedy iouThr eps K (bs.zip ss)).map Prod.fst ++
              List.replicate (K - (nmsGreedy iouThr eps K (bs.zip ss)).length) zeroBox,
             (nmsGreedy iouThr eps K (bs.zip ss)).map Prod.snd ++
              List.replicate (K - (nmsGreedy iouThr eps K (bs.zip ss)).length) 0)) := by
  refine ⟨?_, ?_, ?_, ?_, ?_⟩
  · simp [nmsLoop]
  · intro p hp
    rw [nmsLoop, List.mem_map] at hp
    obtain ⟨j, _, hj⟩ := hp
    match hin : inputs[j]? with
    | some (bs, ss) =>
      rw [hin] at hj
      rw [← hj]
      exact nms_with_pad_length bs ss K iouThr eps
    | none =>
      rw [hin] at hj
      rw [← hj]
      simp
  · intro hlen
    have hnone : inputs[i]? = none := by
      simp [List.getElem?_eq_none, hlen]
    simp [nmsLoop, List.getElem?_map, List.getElem?_range, hi, hnone]
  · intro bs ss hsome
    simp [nmsLoop, List.getElem?_map, List.getElem?_range, hi, hsome]
  · intro bs ss
    exact ⟨nmsGreedy_length_le iouThr eps K (bs.zip ss), rfl⟩

/-- C3 witness: the NMS stage at batch size 2, K = 1, a single true input of
two boxes, inspected at the ragged slot i = 1. -/
theorem C3_nms_extract_witness :
    1 < 2
    ∧ ((nmsLoop 2 1 [([Box.mk 0 0 1 1, Box.mk 0 0 (1/2) (1/2)], [9/10, 8/10])]
          (1/2) (1/100000000)).length = 2
      ∧ (∀ p ∈ nmsLoop 2 1 [([Box.mk 0 0 1 1, Box.mk 0 0 (1/2) (1/2)], [9/10, 8/10])]
            (1/2) (1/100000000), p.1.length = 1 ∧ p.2.length = 1)
      ∧ ([([Box.mk 0 0 1 1, Box.mk 0 0 (1/2) (1/2)], [(9:ℚ)/10, 8/10])].length ≤ 1 →
          (nmsLoop 2 1 [([Box.mk 0 0 1 1, Box.mk 0 0 (1/2) (1/2)], [9/10, 8/10])]
            (1/2) (1/100000000))[1]? =
            some (List.replicate 1 zeroBox, List.replicate 1 0))
      ∧ (∀ bs ss,
          [([Box.mk 0 0 1 1, Box.mk 0 0 (1/2) (1/2)], [(9:ℚ)/10, 8/10])][1]? = some (bs, ss) →
          (nmsLoop 2 1 [([Box.mk 0 0 1 1, Box.mk 0 0 (1/2) (1/2)], [9/10, 8/10])]
            (1/2) (1/100000000))[1]? =
            some (nms_with_pad bs ss 1 (1/2) (1/100000000)))
      ∧ (∀ bs ss,
          (nmsGreedy (1/2) (1/100000000) 1 (bs.zip ss)).length ≤ 1
          ∧ nms_with_pad bs ss 1 (1/2) (1/100000000) =
              ((nmsGreedy (1/2) (1/100000000) 1 (bs.zip ss)).map Prod.fst ++
                List.replicate (1 - (nmsGreedy (1/2) (1/100000000) 1 (bs.zip ss)).length) zeroBox,
               (nmsGreedy (1/2) (1/100000000) 1 (bs.zip ss)).map Prod.snd ++
                List.replicate (1 - (nmsGreedy (1/2) (1/100000000) 1 (bs.zip ss)).length) 0))) :=
  ⟨by norm_num,
   C3_nms_extract 2 1 1 [([Box.mk 0 0 1 1, Box.mk 0 0 (1/2) (1/2)], [9/10, 8/10])]
     (1/2) (1/100000000) (by norm_num)⟩

/-- Embeds the bounding-box coordinate transform of apply_data_augmentation:
gather the coordinates in order [2, 1, 0, 3] and take the componentwise
absolute difference from [1, 0, 1, 0], i.e.
(x1, y1, x2, y2) becomes (abs (1 - x2), abs y1, abs (1 - x1), abs y2). -/
def flipBox (b : Box) : Box := ⟨|1 - b.x2|, |b.y1|, |1 - b.x1|, |b.y2|⟩

/-- One sample of a parsed dataset batch with every spatial field the flip
touches: the image rows, the is_flipped flag, the ground-truth boxes, the
cell occupancy mask, and the per-cell group boxes, flags and class labels
(cell tensors indexed row of cells first, flipped along the second cell
axis). Pixel, mask, flag and class entries are opaque type parameters, since
the flip only reorders them. -/
structure Record (P M F C : Type) where
  image : List (List P)
  is_flipped : ℚ
  bounding_boxes : List Box
  obj_i_mask_bbs : List (List M)
  group_bounding_boxes_per_cell : List (List Box)
  group_flags : List (List F)
  group_class_labels : List (List C)
deriving DecidableEq

/-- Embeds the flip branch of apply_data_augmentation (the value each
tf.where takes when the Bernoulli draw selects the flip): reverse the image
along its horizontal axis, complement is_flipped, transform each bounding
box, and reverse every cell tensor along the second cell axis, additionally
transforming the group box coordinates. -/
def flip_record {P M F C : Type} (r : Record P M F C) : Record P M F C where
  image := r.image.map List.reverse
  is_flipped := 1 - r.is_flipped
  bounding_boxes := r.bounding_boxes.map flipBox
  obj_i_mask_bbs := r.obj_i_mask_bbs.map List.reverse
  group_bounding_boxes_per_cell :=
    (r.group_bounding_boxes_per_cell.map List.reverse).map (List.map flipBox)
  group_flags := r.group_flags.map List.reverse
  group_class_labels := r.group_class_labels.map List.reverse

/-- A box with all four coordinates in the unit interval, as the Record data
model requires of normalized boxes. -/
def boxIn01 (b : Box) : Prop :=
  (0 ≤ b.x1 ∧ b.x1 ≤ 1) ∧ (0 ≤ b.y1 ∧ b.y1 ≤ 1)
  ∧ (0 ≤ b.x2 ∧ b.x2 ≤ 1) ∧ (0 ≤ b.y2 ∧ b.y2 ≤ 1)

instance (b : Box) : Decidable (boxIn01 b) := by
  unfold boxIn01
  infer_instance

/-- The coordinate transform is an involution on normalized boxes. -/
theorem flipBox_flipBox (b : Box) (h : boxIn01 b) : flipBox (flipBox b) = b := by
  obtain ⟨⟨hx1a, hx1b⟩, ⟨hy1a, _⟩, ⟨hx2a, hx2b⟩, ⟨hy2a, _⟩⟩ := h
  unfold flipBox
  have e1 : |1 - b.x1| = 1 - b.x1 := abs_of_nonneg (by linarith)
  have e2 : |1 - b.x2| = 1 - b.x2 := abs_of_nonneg (by linarith)
  have e3 : |b.y1| = b.y1 := abs_of_nonneg hy1a
  have e4 : |b.y2| = b.y2 := abs_of_nonneg hy2a
  simp only [e1, e2, e3, e4]
  have f1 : |1 - (1 - b.x1)| = b.x1 := by
    rw [show (1:ℚ) - (1 - b.x1) = b.x1 by ring]
    exact abs_of_nonneg hx1a
  have f2 : |1 - (1 - b.x2)| = b.x2 := by
    rw [show (1:ℚ) - (1 - b.x2) = b.x2 by ring]
    exact abs_of_nonneg hx2a
  simp only [f1, f2, e3, e4]

/-- Mapping the coordinate transform twice over a list of normalized boxes
is the identity. -/
theorem map_flipBox_flipBox (l : List Box) (h : ∀ b ∈ l, boxIn01 b) :
    (l.map flipBox).map flipBox = l := by
  rw [List.map_map]
  have : ∀ b ∈ l, (flipBox ∘ flipBox) b = id b := fun b hb => flipBox_flipBox b (h b hb)
  rw [List.map_congr_left this, List.map_id]

/-- Reversing the rows of a list of lists twice is the identity. -/
theorem map_reverse_reverse {α : Type} (l : List (List α)) :
    (l.map List.reverse).map List.reverse = l := by
  rw [List.map_map]
  have : ∀ x ∈ l, (List.reverse ∘ List.reverse) x = id x := by
    intro x _
    simp
  rw [List.map_congr_left this, List.map_id]

/-- Flipping the per-cell group boxes twice (reverse the cell axis and
transform coordinates, twice) is the identity on normalized boxes. -/
theorem flip_group_rows (g : List (List Box)) (h : ∀ row ∈ g, ∀ b ∈ row, boxIn01 b) :
    (((g.map List.reverse).map (List.map flipBox)).map List.reverse).map (List.map flipBox)
      = g := by
  induction g with
  | nil => rfl
  | cons row t ih =>
    simp only [List.map_cons, List.cons.injEq]
    constructor
    · simp only [List.map_reverse, List.reverse_reverse]
      exact map_flipBox_flipBox row (h row (List.mem_cons_self row t))
    · exact ih fun r hr => h r (List.mem_cons_of_mem row hr)

/-- C4: forcing the flip branch of apply_data_augmentation twice returns
every field of a record to its original value, provided all box coordinates
(ground-truth boxes and per-cell group boxes) are normalized to the unit
interval. -/
theorem C4_flip_involutive {P M F C : Type} (r : Record P M F C)
    (hb : ∀ b ∈ r.bounding_boxes, boxIn01 b)
    (hg : ∀ row ∈ r.group_bounding_boxes_per_cell, ∀ b ∈ row, boxIn01 b) :
    flip_record (flip_record r) = r := by
  unfold flip_record
  obtain ⟨img, fl, bbs, mask, gbbs, gflags, gcls⟩ := r
  simp only [Record.mk.injEq]
  exact ⟨map_reverse_reverse img, by ring, map_flipBox_flipBox bbs hb,
    map_reverse_reverse mask, flip_group_rows gbbs hg,
    map_reverse_reverse gflags, map_reverse_reverse gcls⟩

/-- C4 witness: a concrete one-sample record with two pixels, one normalized
box, a 1-by-2 cell grid and one group row, flipped twice. -/
theorem C4_flip_involutive_witness :
    (∀ b ∈ (Record.mk [[10, 20]] 0 [Box.mk 0 0 1 1] [[true, false]]
        [[Box.mk 0 1 1 1, Box.mk 0 0 1 0]] [[(0:ℚ), 1]] [[3, 4]] :
        Record ℕ Bool ℚ ℕ).bounding_boxes, boxIn01 b)
    ∧ (∀ row ∈ (Record.mk [[10, 20]] 0 [Box.mk 0 0 1 1] [[true, false]]
        [[Box.mk 0 1 1 1, Box.mk 0 0 1 0]] [[(0:ℚ), 1]] [[3, 4]] :
        Record ℕ Bool ℚ ℕ).group_bounding_boxes_per_cell, ∀ b ∈ row, boxIn01 b)
    ∧ flip_record (flip_record (Record.mk [[10, 20]] 0 [Box.mk 0 0 1 1] [[true, false]]
        [[Box.mk 0 1 1 1, Box.mk 0 0 1 0]] [[(0:ℚ), 1]] [[3, 4]] :
        Record ℕ Bool ℚ ℕ))
      = Record.mk [[10, 20]] 0 [Box.mk 0 0 1 1] [[true, false]]
        [[Box.mk 0 1 1 1, Box.mk 0 0 1 0]] [[(0:ℚ), 1]] [[3, 4]] := by
  have hb : ∀ b ∈ (Record.mk [[10, 20]] 0 [Box.mk 0 0 1 1] [[true, false]]
      [[Box.mk 0 1 1 1, Box.mk 0 0 1 0]] [[(0:ℚ), 1]] [[3, 4]] :
      Record ℕ Bool ℚ ℕ).bounding_boxes, boxIn01 b := by decide
  have hg : ∀ row ∈ (Record.mk [[10, 20]] 0 [Box.mk 0 0 1 1] [[true, false]]
      [[Box.mk 0 1 1 1, Box.mk 0 0 1 0]] [[(0:ℚ), 1]] [[3, 4]] :
      Record ℕ Bool ℚ ℕ).group_bounding_boxes_per_cell, ∀ b ∈ row, boxIn01 b := by decide
  exact ⟨hb, hg, C4_flip_involutive _ hb hg⟩

/-- Embeds the per-cell intersection of parsing_function (tf_inputs.py):
the intersection area between a ground-truth box and grid cell (i, j), whose
normalized offsets are mins = (i/Gx, j/Gy) and maxs = ((i+1)/Gx, (j+1)/Gy)
(GridOffsets: cell (i, j) spans the grid rectangle of a Gx-by-Gy partition of
the unit square). -/
def cellInter (Gx Gy : ℕ) (b : Box) (i j : ℕ) : ℚ :=
  max 0 (min b.x2 (((i : ℚ) + 1) / (Gx : ℚ)) - max b.x1 ((i : ℚ) / (Gx : ℚ))) *
  max 0 (min b.y2 (((j : ℚ) + 1) / (Gy : ℚ)) - max b.y1 ((j : ℚ) / (Gy : ℚ)))

/-- Embeds the occupancy mask obj_i_mask_bbs: a box occupies a cell iff its
intersection area with the cell is positive. -/
def occupies (Gx Gy : ℕ) (b : Box) (i j : ℕ) : Bool :=
  decide (0 < cellInter Gx Gy b i j)

/-- The number of boxes of the record occupying cell (i, j): the sum of the
0/1 occupancy mask over the box axis. -/
def cellCount (Gx Gy : ℕ) (bs : List Box) (i j : ℕ) : ℕ :=
  bs.countP fun b => occupies Gx Gy b i j

/-- Embeds the unique_intersect combined score of parsing_function:
w1 = intersection * Gx * Gy times w2 = 1 - occupied-count / num_boxes. -/
def uiScore (Gx Gy nB : ℕ) (bs : List Box) (b : Box) (i j : ℕ) : ℚ :=
  cellInter Gx Gy b i j * (Gx : ℚ) * (Gy : ℚ) *
    (1 - (cellCount Gx Gy bs i j : ℚ) / (nB : ℚ))

/-- The maximum of the unique_intersect score of a box over all grid cells
(tf.reduce_max over both cell axes). -/
def uiMax (Gx Gy nB : ℕ) (bs : List Box) (b : Box) : ℚ :=
  (((List.range Gx).flatMap fun i =>
    (List.range Gy).map fun j => uiScore Gx Gy nB bs b i j).max?).getD 0

/-- Embeds the unique_intersect group mask: a box is assigned to cell (i, j)
iff its combined score there is positive and at least the maximum of its
scores over all cells. -/
def uniqueIntersectMask (Gx Gy nB : ℕ) (bs : List Box) (b : Box) (i j : ℕ) : Bool :=
  decide (0 < uiScore Gx Gy nB bs b i j)
    && decide (uiMax Gx Gy nB bs b ≤ uiScore Gx Gy nB bs b i j)

/-- Embeds the intersect_with_density group mask: occupancy multiplied by the
indicator that the intersection is strictly below 1 / (Gx * Gy). -/
def densityMask (Gx Gy : ℕ) (b : Box) (i j : ℕ) : Bool :=
  decide (0 < cellInter Gx Gy b i j)
    && decide (cellInter Gx Gy b i j < 1 / ((Gx : ℚ) * (Gy : ℚ)))

/-- The initial value of a left max fold is below the result. -/
theorem foldl_max_init_le (l : List ℚ) (x : ℚ) : x ≤ l.foldl max x := by
  induction l generalizing x with
  | nil => exact le_refl x
  | cons a t ih => exact le_trans (le_max_left x a) (ih (max x a))

/-- Every member of a list is below its left max fold. -/
theorem le_foldl_max (l : List ℚ) (x a : ℚ) (h : a ∈ l) : a ≤ l.foldl max x := by
  induction l generalizing x with
  | nil => cases h
  | cons hd t ih =>
    rcases List.mem_cons.mp h with rfl | hmem
    · exact le_trans (le_max_right x a) (foldl_max_init_le t (max x a))
    · exact ih (max x hd) hmem

/-- Every member of a list is at most the optional maximum (with default 0). -/
theorem le_max?_getD (l : List ℚ) (a : ℚ) (h : a ∈ l) : a ≤ l.max?.getD 0 := by
  match l, h with
  | hd :: t, h =>
    have : (hd :: t).max? = some (t.foldl max hd) := rfl
    rw [this, Option.getD_some]
    rcases List.mem_cons.mp h with rfl | hmem
    · exact foldl_max_init_le t a
    · exact le_foldl_max t hd a hmem

/-- A cell score never exceeds the reduced maximum over the grid. -/
theorem uiScore_le_uiMax (Gx Gy nB : ℕ) (bs : List Box) (b : Box) (i j : ℕ)
    (hi : i < Gx) (hj : j < Gy) :
    uiScore Gx Gy nB bs b i j ≤ uiMax Gx Gy nB bs b := by
  apply le_max?_getD
  rw [List.mem_flatMap]
  exact ⟨i, List.mem_range.mpr hi, List.mem_map.mpr ⟨j, List.mem_range.mpr hj, rfl⟩⟩

/-- C5: under unique_intersect, a box is assigned to cell (i, j) iff its
combined score w1 * w2 there is positive and equals the maximum of its scores
over all cells; and every cell achieving a positive maximum is assigned, so
exact ties assign the box to every tied cell. -/
theorem C5_unique_intersect (Gx Gy nB : ℕ) (bs : List Box) (b : Box) (i j : ℕ)
    (hi : i < Gx) (hj : j < Gy) :
    (uniqueIntersectMask Gx Gy nB bs b i j = true ↔
      (0 < uiScore Gx Gy nB bs b i j
        ∧ uiScore Gx Gy nB bs b i j = uiMax Gx Gy nB bs b))
    ∧ (∀ i' j', i' < Gx → j' < Gy →
        0 < uiMax Gx Gy nB bs b →
        uiScore Gx Gy nB bs b i' j' = uiMax Gx Gy nB bs b →
        uniqueIntersectMask Gx Gy nB bs b i' j' = true) := by
  constructor
  · unfold uniqueIntersectMask
    rw [Bool.and_eq_true, decide_eq_true_eq, decide_eq_true_eq]
    constructor
    · rintro ⟨hpos, hge⟩
      exact ⟨hpos, le_antisymm (uiScore_le_uiMax Gx Gy nB bs b i j hi hj) hge⟩
    · rintro ⟨hpos, heq⟩
      exact ⟨hpos, le_of_eq heq.symm⟩
  · intro i' j' hi' hj' hmaxpos heq
    unfold uniqueIntersectMask
    rw [Bool.and_eq_true, decide_eq_true_eq, decide_eq_true_eq]
    exact ⟨heq ▸ hmaxpos, le_of_eq heq.symm⟩

/-- C5 witness: the unique_intersect assignment rule on a 2-by-2 grid with one
box, at cell (0, 0). -/
theorem C5_unique_intersect_witness :
    (0 < 2 ∧ 0 < 2)
    ∧ ((uniqueIntersectMask 2 2 1 [Box.mk 0 0 1 1] (Box.mk 0 0 1 1) 0 0 = true ↔
        (0 < uiScore 2 2 1 [Box.mk 0 0 1 1] (Box.mk 0 0 1 1) 0 0
          ∧ uiScore 2 2 1 [Box.mk 0 0 1 1] (Box.mk 0 0 1 1) 0 0
            = uiMax 2 2 1 [Box.mk 0 0 1 1] (Box.mk 0 0 1 1)))
      ∧ (∀ i' j', i' < 2 → j' < 2 →
          0 < uiMax 2 2 1 [Box.mk 0 0 1 1] (Box.mk 0 0 1 1) →
          uiScore 2 2 1 [Box.mk 0 0 1 1] (Box.mk 0 0 1 1) i' j'
            = uiMax 2 2 1 [Box.mk 0 0 1 1] (Box.mk 0 0 1 1) →
          uniqueIntersectMask 2 2 1 [Box.mk 0 0 1 1] (Box.mk 0 0 1 1) i' j' = true)) :=
  ⟨⟨by norm_num, by norm_num⟩,
   C5_unique_intersect 2 2 1 [Box.mk 0 0 1 1] (Box.mk 0 0 1 1) 0 0
     (by norm_num) (by norm_num)⟩

/-- C6: the claim as stated is false. On a 2-by-2 grid, the box
(0, 0, 1/2, 1/2) intersects cell (0, 0) in exactly 1/4 = 1/(Gx*Gy); it does
not exceed that bound, yet the intersect_with_density mask excludes it,
because the code requires the strict inequality inters < 1/(Gx*Gy) for
membership. -/
theorem C6_counterexample :
    cellInter 2 2 (Box.mk 0 0 (1/2) (1/2)) 0 0 = 1/4
    ∧ occupies 2 2 (Box.mk 0 0 (1/2) (1/2)) 0 0 = true
    ∧ ¬ (1 / ((2:ℚ) * 2) < cellInter 2 2 (Box.mk 0 0 (1/2) (1/2)) 0 0)
    ∧ densityMask 2 2 (Box.mk 0 0 (1/2) (1/2)) 0 0 = false := by
  have hc : cellInter 2 2 (Box.mk 0 0 (1/2) (1/2)) 0 0 = 1/4 := by
    norm_num [cellInter]
  refine ⟨hc, ?_, ?_, ?_⟩
  · rw [occupies, hc]
    norm_num
  · rw [hc]
    norm_num
  · rw [densityMask, hc]
    norm_num

/-- C6 (amended): under intersect_with_density, a box occupying a cell is
excluded from the cell's group iff its intersection with the cell is at least
1 / (Gx * Gy) -- in particular a box whose intersection equals exactly
1 / (Gx * Gy) is excluded, not kept. -/
theorem C6_density_exclusion (Gx Gy : ℕ) (b : Box) (i j : ℕ)
    (hocc : 0 < cellInter Gx Gy b i j) :
    (densityMask Gx Gy b i j = false ↔
      1 / ((Gx : ℚ) * (Gy : ℚ)) ≤ cellInter Gx Gy b i j)
    ∧ (cellInter Gx Gy b i j = 1 / ((Gx : ℚ) * (Gy : ℚ)) →
        densityMask Gx Gy b i j = false) := by
  have hmask : densityMask Gx Gy b i j
      = decide (cellInter Gx Gy b i j < 1 / ((Gx : ℚ) * (Gy : ℚ))) := by
    rw [densityMask, decide_eq_true hocc, Bool.true_and]
  constructor
  · rw [hmask]
    constructor
    · intro h
      exact not_lt.mp (of_decide_eq_false h)
    · intro h
      exact decide_eq_false (not_lt.mpr h)
  · intro heq
    rw [hmask, heq]
    exact decide_eq_false (lt_irrefl _)

/-- C6 witness: the exclusion rule at the quadrant box on the 2-by-2 grid. -/
theorem C6_density_exclusion_witness :
    0 < cellInter 2 2 (Box.mk 0 0 (1/2) (1/2)) 0 0
    ∧ ((densityMask 2 2 (Box.mk 0 0 (1/2) (1/2)) 0 0 = false ↔
        1 / ((2:ℚ) * 2) ≤ cellInter 2 2 (Box.mk 0 0 (1/2) (1/2)) 0 0)
      ∧ (cellInter 2 2 (Box.mk 0 0 (1/2) (1/2)) 0 0 = 1 / ((2:ℚ) * 2) →
          densityMask 2 2 (Box.mk 0 0 (1/2) (1/2)) 0 0 = false)) :=
  ⟨by norm_num [cellInter],
   C6_density_exclusion 2 2 (Box.mk 0 0 (1/2) (1/2)) 0 0 (by norm_num [cellInter])⟩

/-- The reduced minimum of a nonempty list of rationals (tf.reduce_min);
0 for the empty list, which does not arise for the nonempty box axis. -/
def redMin : List ℚ → ℚ
  | [] => 0
  | x :: xs => xs.foldl min x

/-- The reduced maximum of a nonempty list of rationals (tf.reduce_max);
0 for the empty list, which does not arise for the nonempty box axis. -/
def redMax : List ℚ → ℚ
  | [] => 0
  | x :: xs => xs.foldl max x

/-- Embeds the group-merging step of parsing_function: over the pairs of a
box and its 0/1 group-mask value for one cell, the merged box has
mins = reduce_min(mins + 1 - mask), maxs = reduce_max(maxs * mask), then is
clipped to the unit interval. -/
def groupBox (l : List (Box × ℚ)) : Box :=
  clipBox
    ⟨redMin (l.map fun p => p.1.x1 + 1 - p.2),
     redMin (l.map fun p => p.1.y1 + 1 - p.2),
     redMax (l.map fun p => p.1.x2 * p.2),
     redMax (l.map fun p => p.1.y2 * p.2)⟩

/-- The 0/1 group-mask column of one cell: each box of the record paired with
1 when the given mask keeps it and 0 otherwise. -/
def maskedPairs (bs : List Box) (m : Box → Bool) : List (Box × ℚ) :=
  bs.map fun b => (b, if m b then 1 else 0)

/-- Embeds num_bbs_per_cell: the sum of the group-mask column of a cell. -/
def numBBsPerCell (l : List (Box × ℚ)) : ℚ := (l.map Prod.snd).sum

/-- Embeds group_flags: max(min(num_bbs_per_cell, 2) - 1, 0). -/
def groupFlag (l : List (Box × ℚ)) : ℚ := max (min (numBBsPerCell l) 2 - 1) 0

/-- Embeds num_group_boxes: the number of grid cells whose group-mask column
has a positive sum. -/
def numGroupBoxes (Gx Gy : ℕ) (bs : List Box) (m : ℕ → ℕ → Box → Bool) : ℕ :=
  ((List.range Gx).flatMap fun i => (List.range Gy).map fun j =>
    numBBsPerCell (maskedPairs bs (m i j))).countP fun q => decide (0 < q)

/-- The initial value of a left min fold is above the result. -/
theorem foldl_min_init_le (l : List ℚ) (x : ℚ) : l.foldl min x ≤ x := by
  induction l generalizing x with
  | nil => exact le_refl x
  | cons a t ih => exact le_trans (ih (min x a)) (min_le_left x a)

/-- The left min fold is below every member of the list. -/
theorem foldl_min_le (l : List ℚ) (x a : ℚ) (h : a ∈ l) : l.foldl min x ≤ a := by
  induction l generalizing x with
  | nil => cases h
  | cons hd t ih =>
    rcases List.mem_cons.mp h with rfl | hmem
    · exact le_trans (foldl_min_init_le t (min x a)) (min_le_right x a)
    · exact ih (min x hd) hmem

/-- The reduced minimum is below every member. -/
theorem redMin_le (l : List ℚ) (a : ℚ) (h : a ∈ l) : redMin l ≤ a := by
  match l, h with
  | hd :: t, h =>
    rcases List.mem_cons.mp h with rfl | hmem
    · exact foldl_min_init_le t a
    · exact foldl_min_le t hd a hmem

/-- The reduced maximum is above every member. -/
theorem le_redMax (l : List ℚ) (a : ℚ) (h : a ∈ l) : a ≤ redMax l := by
  match l, h with
  | hd :: t, h =>
    rcases List.mem_cons.mp h with rfl | hmem
    · exact foldl_max_init_le t a
    · exact le_foldl_max t hd a hmem

/-- C7: the claim as stated is false for intersect_with_density. On a 2-by-2
grid, the box (0, 0, 1/2, 1/2) occupies cell (0, 0) (per GridAssigner), yet
its density mask is false at every cell of the grid (its only positive cell
intersection equals 1/(Gx*Gy) and is filtered out), so the box contributes to
no cell's group box: its mask column pairs it with 0. -/
theorem C7_counterexample :
    occupies 2 2 (Box.mk 0 0 (1/2) (1/2)) 0 0 = true
    ∧ densityMask 2 2 (Box.mk 0 0 (1/2) (1/2)) 0 0 = false
    ∧ densityMask 2 2 (Box.mk 0 0 (1/2) (1/2)) 0 1 = false
    ∧ densityMask 2 2 (Box.mk 0 0 (1/2) (1/2)) 1 0 = false
    ∧ densityMask 2 2 (Box.mk 0 0 (1/2) (1/2)) 1 1 = false
    ∧ maskedPairs [Box.mk 0 0 (1/2) (1/2)] (fun b' => densityMask 2 2 b' 0 0)
        = [(Box.mk 0 0 (1/2) (1/2), 0)] := by
  have h00 : densityMask 2 2 (Box.mk 0 0 (1/2) (1/2)) 0 0 = false := by
    norm_num [densityMask, cellInter]
  refine ⟨?_, h00, ?_, ?_, ?_, ?_⟩
  · norm_num [occupies, cellInter]
  · norm_num [densityMask, cellInter]
  · norm_num [densityMask, cellInter]
  · norm_num [densityMask, cellInter]
  · simp only [maskedPairs, List.map_cons, List.map_nil, h00]
    norm_num

/-- C7 (amended): under intersect, a box occupying a cell contributes to that
cell's group-mask column with weight 1; under intersect_with_density it does
so whenever the density mask keeps it (occupying alone does not suffice); and
for any 0/1 group-mask column, the merged, clipped group box contains the
coordinate-wise hull of every normalized box assigned with weight 1. -/
theorem C7_group_conservative (Gx Gy : ℕ) (bs : List Box) (b : Box) (i j : ℕ)
    (l : List (Box × ℚ)) (hmem : b ∈ bs) :
    (occupies Gx Gy b i j = true →
      (b, (1:ℚ)) ∈ maskedPairs bs fun b' => occupies Gx Gy b' i j)
    ∧ (densityMask Gx Gy b i j = true →
      (b, (1:ℚ)) ∈ maskedPairs bs fun b' => densityMask Gx Gy b' i j)
    ∧ ((b, (1:ℚ)) ∈ l → boxIn01 b →
        (groupBox l).x1 ≤ b.x1 ∧ (groupBox l).y1 ≤ b.y1
        ∧ b.x2 ≤ (groupBox l).x2 ∧ b.y2 ≤ (groupBox l).y2) := by
  refine ⟨?_, ?_, ?_⟩
  · intro h
    exact List.mem_map.mpr ⟨b, hmem, by simp [h]⟩
  · intro h
    exact List.mem_map.mpr ⟨b, hmem, by simp [h]⟩
  · intro hl hn
    obtain ⟨⟨hx1a, _⟩, ⟨hy1a, _⟩, ⟨_, hx2b⟩, ⟨_, hy2b⟩⟩ := hn
    have hminx : redMin (l.map fun p => p.1.x1 + 1 - p.2) ≤ b.x1 := by
      have := redMin_le (l.map fun p => p.1.x1 + 1 - p.2) (b.x1 + 1 - 1)
        (List.mem_map.mpr ⟨(b, 1), hl, rfl⟩)
      linarith
    have hminy : redMin (l.map fun p => p.1.y1 + 1 - p.2) ≤ b.y1 := by
      have := redMin_le (l.map fun p => p.1.y1 + 1 - p.2) (b.y1 + 1 - 1)
        (List.mem_map.mpr ⟨(b, 1), hl, rfl⟩)
      linarith
    have hmaxx : b.x2 ≤ redMax (l.map fun p => p.1.x2 * p.2) := by
      have := le_redMax (l.map fun p => p.1.x2 * p.2) (b.x2 * 1)
        (List.mem_map.mpr ⟨(b, 1), hl, rfl⟩)
      linarith
    have hmaxy : b.y2 ≤ redMax (l.map fun p => p.1.y2 * p.2) := by
      have := le_redMax (l.map fun p => p.1.y2 * p.2) (b.y2 * 1)
        (List.mem_map.mpr ⟨(b, 1), hl, rfl⟩)
      linarith
    refine ⟨?_, ?_, ?_, ?_⟩
    · exact le_trans (min_le_right 1 _) (max_le hx1a hminx)
    · exact le_trans (min_le_right 1 _) (max_le hy1a hminy)
    · exact le_min hx2b (le_trans hmaxx (le_max_right 0 _))
    · exact le_min hy2b (le_trans hmaxy (le_max_right 0 _))

/-- C7 witness: the conservativeness statement at the unit box on a 2-by-2
grid, with the singleton mask column assigning it weight 1. -/
theorem C7_group_conservative_witness :
    (Box.mk 0 0 1 1) ∈ [Box.mk 0 0 1 1]
    ∧ ((occupies 2 2 (Box.mk 0 0 1 1) 0 0 = true →
        (Box.mk 0 0 1 1, (1:ℚ)) ∈
          maskedPairs [Box.mk 0 0 1 1] fun b' => occupies 2 2 b' 0 0)
      ∧ (densityMask 2 2 (Box.mk 0 0 1 1) 0 0 = true →
        (Box.mk 0 0 1 1, (1:ℚ)) ∈
          maskedPairs [Box.mk 0 0 1 1] fun b' => densityMask 2 2 b' 0 0)
      ∧ ((Box.mk 0 0 1 1, (1:ℚ)) ∈ [(Box.mk 0 0 1 1, (1:ℚ))] → boxIn01 (Box.mk 0 0 1 1) →
          (groupBox [(Box.mk 0 0 1 1, (1:ℚ))]).x1 ≤ (Box.mk 0 0 1 1).x1
          ∧ (groupBox [(Box.mk 0 0 1 1, (1:ℚ))]).y1 ≤ (Box.mk 0 0 1 1).y1
          ∧ (Box.mk 0 0 1 1).x2 ≤ (groupBox [(Box.mk 0 0 1 1, (1:ℚ))]).x2
          ∧ (Box.mk 0 0 1 1).y2 ≤ (groupBox [(Box.mk 0 0 1 1, (1:ℚ))]).y2)) :=
  ⟨List.mem_singleton.mpr rfl,
   C7_group_conservative 2 2 [Box.mk 0 0 1 1] (Box.mk 0 0 1 1) 0 0
     [(Box.mk 0 0 1 1, (1:ℚ))] (List.mem_singleton.mpr rfl)⟩

/-- A zero-area box has zero intersection with every grid cell. -/
theorem cellInter_of_zero_area (Gx Gy : ℕ) (b : Box) (i j : ℕ)
    (h : get_area b = 0) : cellInter Gx Gy b i j = 0 := by
  unfold get_area at h
  rcases mul_eq_zero.mp h with hx | hy
  · have hle : b.x2 - b.x1 ≤ 0 := by
      by_contra hpos
      push_neg at hpos
      rw [max_eq_right (le_of_lt hpos)] at hx
      linarith
    unfold cellInter
    have : min b.x2 (((i : ℚ) + 1) / (Gx : ℚ)) - max b.x1 ((i : ℚ) / (Gx : ℚ)) ≤ 0 := by
      have h1 : min b.x2 (((i : ℚ) + 1) / (Gx : ℚ)) ≤ b.x2 := min_le_left _ _
      have h2 : b.x1 ≤ max b.x1 ((i : ℚ) / (Gx : ℚ)) := le_max_left _ _
      linarith
    rw [max_eq_left this, zero_mul]
  · have hle : b.y2 - b.y1 ≤ 0 := by
      by_contra hpos
      push_neg at hpos
      rw [max_eq_right (le_of_lt hpos)] at hy
      linarith
    unfold cellInter
    have : min b.y2 (((j : ℚ) + 1) / (Gy : ℚ)) - max b.y1 ((j : ℚ) / (Gy : ℚ)) ≤ 0 := by
      have h1 : min b.y2 (((j : ℚ) + 1) / (Gy : ℚ)) ≤ b.y2 := min_le_left _ _
      have h2 : b.y1 ≤ max b.y1 ((j : ℚ) / (Gy : ℚ)) := le_max_left _ _
      linarith
    rw [max_eq_left this, mul_zero]

/-- A fold of max over an all-zero list starting at 0 stays 0. -/
theorem foldl_max_zeros (l : List ℚ) (h : ∀ a ∈ l, a = 0) : l.foldl max 0 = 0 := by
  induction l with
  | nil => rfl
  | cons hd t ih =>
    have hhd : hd = 0 := h hd (List.mem_cons_self hd t)
    simp only [List.foldl_cons, hhd, max_self]
    exact ih fun a ha => h a (List.mem_cons_of_mem hd ha)

/-- The reduced maximum of an all-zero list is 0. -/
theorem redMax_zeros (l : List ℚ) (h : ∀ a ∈ l, a = 0) : redMax l = 0 := by
  match l with
  | [] => rfl
  | hd :: t =>
    have hhd : hd = 0 := h hd (List.mem_cons_self hd t)
    show t.foldl max hd = 0
    rw [hhd]
    exact foldl_max_zeros t fun a ha => h a (List.mem_cons_of_mem hd ha)

/-- Clipping 0 to the unit interval gives 0. -/
theorem clip01_zero : clip01 0 = 0 := by
  unfold clip01
  rw [max_self]
  exact min_eq_right (by norm_num)

/-- C9: degenerate geometry stays well defined. For a record whose boxes all
have zero area (so num_boxes = 0), the occupancy mask is all false, every
grouping method's group mask rejects every box at every cell -- including
unique_intersect, whose per-cell weight divides by num_boxes (division is
total in the rational model, and the positivity guard makes the final mask
false regardless) -- the per-cell box count, group flag and image-wide group
box count are all 0, the merged group box degenerates to zero maxs, and NMS
on an empty box list still returns exactly K zero boxes and K zero scores. -/
theorem C9_degenerate (Gx Gy nB K : ℕ) (bs : List Box) (b : Box) (i j : ℕ)
    (iouThr eps : ℚ)
    (hb : get_area b = 0) (hbs : ∀ x ∈ bs, get_area x = 0) :
    occupies Gx Gy b i j = false
    ∧ uniqueIntersectMask Gx Gy nB bs b i j = false
    ∧ densityMask Gx Gy b i j = false
    ∧ cellCount Gx Gy bs i j = 0
    ∧ numBBsPerCell (maskedPairs bs fun x => occupies Gx Gy x i j) = 0
    ∧ groupFlag (maskedPairs bs fun x => occupies Gx Gy x i j) = 0
    ∧ numGroupBoxes Gx Gy bs (fun i' j' x => occupies Gx Gy x i' j') = 0
    ∧ (groupBox (maskedPairs bs fun x => occupies Gx Gy x i j)).x2 = 0
    ∧ (groupBox (maskedPairs bs fun x => occupies Gx Gy x i j)).y2 = 0
    ∧ nms_with_pad [] [] K iouThr eps
        = (List.replicate K zeroBox, List.replicate K 0) := by
  have hocc : ∀ (x : Box), get_area x = 0 → ∀ i' j', occupies Gx Gy x i' j' = false := by
    intro x hx i' j'
    unfold occupies
    rw [cellInter_of_zero_area Gx Gy x i' j' hx]
    exact decide_eq_false (lt_irrefl 0)
  have hsum : ∀ i' j',
      numBBsPerCell (maskedPairs bs fun x => occupies Gx Gy x i' j') = 0 := by
    intro i' j'
    apply List.sum_eq_zero
    intro q hq
    rw [maskedPairs, List.map_map, List.mem_map] at hq
    obtain ⟨x, hxmem, hxeq⟩ := hq
    rw [← hxeq]
    simp [hocc x (hbs x hxmem) i' j']
  refine ⟨hocc b hb i j, ?_, ?_, ?_, hsum i j, ?_, ?_, ?_, ?_, ?_⟩
  · unfold uniqueIntersectMask
    have : uiScore Gx Gy nB bs b i j = 0 := by
      unfold uiScore
      rw [cellInter_of_zero_area Gx Gy b i j hb]
      ring
    rw [this]
    simp
  · unfold densityMask
    rw [cellInter_of_zero_area Gx Gy b i j hb]
    simp
  · unfold cellCount
    rw [List.countP_eq_zero]
    intro x hx
    simp [hocc x (hbs x hx) i j]
  · unfold groupFlag
    rw [hsum i j]
    norm_num
  · unfold numGroupBoxes
    rw [List.countP_eq_zero]
    intro q hq
    rw [List.mem_flatMap] at hq
    obtain ⟨i', _, hq⟩ := hq
    rw [List.mem_map] at hq
    obtain ⟨j', _, hqeq⟩ := hq
    rw [← hqeq, hsum i' j']
    simp
  · have : ∀ a ∈ (maskedPairs bs fun x => occupies Gx Gy x i j).map
        (fun p => p.1.x2 * p.2), a = 0 := by
      intro a ha
      rw [maskedPairs, List.map_map, List.mem_map] at ha
      obtain ⟨x, hxmem, hxeq⟩ := ha
      rw [← hxeq]
      simp [hocc x (hbs x hxmem) i j]
    show clip01 (redMax _) = 0
    rw [redMax_zeros _ this, clip01_zero]
  · have : ∀ a ∈ (maskedPairs bs fun x => occupies Gx Gy x i j).map
        (fun p => p.1.y2 * p.2), a = 0 := by
      intro a ha
      rw [maskedPairs, List.map_map, List.mem_map] at ha
      obtain ⟨x, hxmem, hxeq⟩ := ha
      rw [← hxeq]
      simp [hocc x (hbs x hxmem) i j]
    show clip01 (redMax _) = 0
    rw [redMax_zeros _ this, clip01_zero]
  · cases K with
    | zero => rfl
    | succ n =>
      simp [nms_with_pad, nmsGreedy, selectMax]

/-- C9 witness: degenerate geometry at a single zero-area box on the 2-by-2
grid with K = 3. -/
theorem C9_degenerate_witness :
    (get_area zeroBox = 0 ∧ ∀ x ∈ [zeroBox], get_area x = 0)
    ∧ (occupies 2 2 zeroBox 0 0 = false
      ∧ uniqueIntersectMask 2 2 0 [zeroBox] zeroBox 0 0 = false
      ∧ densityMask 2 2 zeroBox 0 0 = false
      ∧ cellCount 2 2 [zeroBox] 0 0 = 0
      ∧ numBBsPerCell (maskedPairs [zeroBox] fun x => occupies 2 2 x 0 0) = 0
      ∧ groupFlag (maskedPairs [zeroBox] fun x => occupies 2 2 x 0 0) = 0
      ∧ numGroupBoxes 2 2 [zeroBox] (fun i' j' x => occupies 2 2 x i' j') = 0
      ∧ (groupBox (maskedPairs [zeroBox] fun x => occupies 2 2 x 0 0)).x2 = 0
      ∧ (groupBox (maskedPairs [zeroBox] fun x => occupies 2 2 x 0 0)).y2 = 0
      ∧ nms_with_pad [] [] 3 (1/2) (1/100000000)
          = (List.replicate 3 zeroBox, List.replicate 3 0)) := by
  have hz : get_area zeroBox = 0 := by norm_num [get_area, zeroBox]
  have hl : ∀ x ∈ [zeroBox], get_area x = 0 := by
    intro x hx
    rw [List.mem_singleton.mp hx]
    exact hz
  exact ⟨⟨hz, hl⟩,
    C9_degenerate 2 2 0 3 [zeroBox] zeroBox 0 0 (1/2) (1/100000000) hz hl⟩

/-- C10 (amended): the first component of get_iou_and_inter always equals
get_iou, and its second component equals intersection / (area A + epsilon) --
which coincides with get_intersection_ratio's intersection / max(epsilon, area A)
only when the two denominators agree. -/
theorem C10_fused_components (A B : Box) (eps : ℚ) :
    (get_iou_and_inter A B eps).1 = get_iou A B eps
    ∧ (get_iou_and_inter A B eps).2 = get_intersection A B / (get_area A + eps) :=
  ⟨rfl, rfl⟩

end ODGI
